import Mathlib

/-!
Verification development for the loopback-sdk-angular service generator
(src/lib/services.js).  The JavaScript transformation pipeline
(model collection, method augmentation, scope/relation reverse
engineering, render-input assembly) is embedded shallowly: JS objects
become Lean structures, in-place mutation becomes explicit state
passing over association lists that preserve JS object key insertion
order, and the thrown configuration error becomes an Except value.
Clones made with Object.create followed by immediate field overrides
are modelled as record copies with the same overrides; this is
observationally equal for the inputs produced by strong-remoting,
where a method named create is a static method, so the cloned object
is never re-read through its prototype link after its parent mutates.
Character case conversion is modelled with the ASCII Char.toUpper and
Char.toLower of Lean; all model names in the claims are ASCII.
-/

set_option maxRecDepth 4096

/-! ## String helpers -/

/-- Capitalize the first character, mirroring
modelName[0].toUpperCase() + modelName.slice(1) from services.js
(lines 140-150).  The JS expression throws on the empty string; the
claims only use nonempty names, and theorems that need nonemptiness
state it as a hypothesis. -/
def capitalizeFirst (s : String) : String :=
  match s.data with
  | [] => ""
  | c :: rest => String.mk (c.toUpper :: rest)

/-- Replace the first occurrence of pat in a character list, mirroring
the single-replacement JS String.replace with a string or non-global
regex pattern. -/
def listReplaceFirst (pat repl : List Char) : List Char → List Char
  | [] => []
  | c :: rest =>
    if pat.isPrefixOf (c :: rest) then repl ++ (c :: rest).drop pat.length
    else c :: listReplaceFirst pat repl rest

/-- Replace the first occurrence of pat in s by repl (JS
String.replace with a string pattern or a non-global regex). -/
def replaceFirst (s pat repl : String) : String :=
  String.mk (listReplaceFirst pat.data repl.data s.data)

/-- Substring test on character lists (JS str.match with a plain
substring regex such as the create test at services.js lines 318 and
340). -/
def listContainsSub (pat : List Char) : List Char → Bool
  | [] => pat.isEmpty
  | c :: rest => pat.isPrefixOf (c :: rest) || listContainsSub pat rest

/-- Substring test on strings. -/
def containsSub (s pat : String) : Bool :=
  listContainsSub pat.data s.data

/-- Replace every dot character by repl, mirroring
commonModelPrefix.replace with the global dot regex at services.js
lines 97-98. -/
def replaceAllDots (s repl : String) : String :=
  String.mk (s.data.foldr (fun c acc => if c = '.' then repl.data ++ acc else c :: acc) [])

/-- Remove the maximal trailing run of slash characters, mirroring
options.apiUrl.replace with the trailing-slash regex at services.js
line 108. -/
def stripTrailingSlashes (s : String) : String :=
  String.mk ((s.data.reverse.dropWhile (fun c => c = '/')).reverse)

/-! ## Data model

The descriptors mirror the objects that services.js reads and mutates:
rest classes from app.handler(rest).adapter.getClasses() and their
shared methods.  JS undefined/absent fields become Option values. -/

/-- A description value as stored by strong-remoting: either a plain
string or an array of lines (normalizeDescription joins the latter
with a newline). -/
inductive Descr where
  | str (s : String)
  | arr (lines : List String)
deriving DecidableEq, Repr

/-- normalizeDescription from services.js lines 135-137. -/
def normalizeDescription : Descr → Descr
  | .arr lines => .str (String.intercalate "\n" lines)
  | .str s => .str s

/-- One accepted parameter of a shared method.  httpSource models
arg.http and arg.http.source collapsed into one Option: none stands
for a parameter with no http binding (or no source), which the
resource-parameter scan skips either way. -/
structure Param where
  arg : String
  httpSource : Option String
deriving DecidableEq, Repr

/-- A shared method as seen by services.js.  internal is none for the
JS falsy values (undefined or false) and some note for the string
redirect note; isReturningArray models the boolean result of the
isReturningArray() accessor. -/
structure Method where
  name : String
  isStatic : Bool
  accepts : List Param
  isReturningArray : Bool
  description : Descr
  resourceParams : Option (List Param) := none
  hasResourceParams : Bool := false
  internal : Option String := none
  deprecated : Bool := false
deriving DecidableEq, Repr

/-- The shared constructor of a rest class (c.ctor, reached per method
as method.restClass.ctor), carrying its accepted parameters. -/
structure CtorInfo where
  accepts : List Param
deriving DecidableEq, Repr

/-- A scope descriptor built by buildScopeMethod: an operation map
keyed by derived API name, plus the formatted target model name. -/
structure ScopeDesc where
  methods : List (String × Method)
  targetClass : String
deriving DecidableEq, Repr

/-- A collected model descriptor.  scopes maps a relation name to
some descriptor or to none, the null sentinel recorded for a target
model that is not among the collected models.  prototypeRels models
the live prototype: scopeName maps to the _targetClass string of the
relation property when present. -/
structure ModelDesc where
  rawName : String
  description : Descr
  methods : List Method
  scopes : List (String × Option ScopeDesc) := []
  prototypeRels : List (String × String)
  isUser : Bool
deriving DecidableEq, Repr

/-- The result map of describeModels: formatted model name to
descriptor, in JS object insertion order. -/
abbrev ModelsMap := List (String × ModelDesc)

/-- Non-fatal diagnostics emitted while collecting models.
warnIgnored carries the message from services.js line 165 and
errorNotModel the console.error message from line 172. -/
inductive Diag where
  | warnIgnored (name : String)
  | errorNotModel (name : String)
deriving DecidableEq, Repr

/-- Generator options with the defaults from services.js lines 75-84
(includeSchema defaults to a falsy absent value). -/
structure GenOptions where
  ngModuleName : String := "lbServices"
  apiUrl : String := "/"
  includeCommonModules : Bool := true
  namespaceModels : Bool := false
  namespaceCommonModels : Bool := false
  namespaceDelimiter : String := "."
  modelsToIgnore : List String := []
  comments : Bool := false
  includeSchema : Bool := false
deriving DecidableEq, Repr

/-- The fatal errors generateServices can throw before rendering. -/
inductive GenError where
  | unsupportedDelimiter
deriving DecidableEq, Repr

/-- The data handed to the ejs template at services.js lines 101-116
(the helpers record is code, not data, and is omitted). -/
structure RenderInput where
  moduleName : String
  models : ModelsMap
  commonAuth : String
  commonAuthRequestInterceptor : String
  commonResource : String
  commonResourceProvider : String
  urlBase : String
  includeCommonModules : Bool
  comments : Bool
deriving DecidableEq, Repr

/-- One rest class as returned by the adapter.  sharedDescription is
c.sharedClass.ctor.settings.description, ctor is the shared
constructor (absent for classes that are not genuine models),
isUserFlag models the prototype-chain test against the built-in user
type. -/
structure RestClass where
  name : String
  ctor : Option CtorInfo
  methods : List Method
  sharedDescription : Descr
  prototypeRels : List (String × String)
  isUserFlag : Bool
deriving DecidableEq, Repr

/-- The application collaborator: its rest classes and, for each
formatted model name, the optional _swaggerMethods filter found at
app.models[modelName].sharedClass._swaggerMethods (none models a
falsy filter; the lookup assumes the registry resolves the name, as
the JS does). -/
structure App where
  classes : List RestClass
  swaggerOf : String → Option (List String)

/-! ## Association-list operations (JS object semantics) -/

/-- First value stored under key k (JS property read; keys stay unique
under upsert so the first match is the match). -/
def mlookup : ModelsMap → String → Option ModelDesc
  | [], _ => none
  | (k0, v) :: rest, k => if k0 = k then some v else mlookup rest k

/-- Update the value stored under key k in place, keeping key order;
no-op when the key is absent. -/
def mupdate : ModelsMap → String → (ModelDesc → ModelDesc) → ModelsMap
  | [], _, _ => []
  | (k0, v) :: rest, k, f =>
    if k0 = k then (k0, f v) :: rest else (k0, v) :: mupdate rest k f

/-- Upsert: overwrite in place when the key exists, append otherwise
(JS result[name] = value). -/
def mset : ModelsMap → String → ModelDesc → ModelsMap
  | [], k, v => [(k, v)]
  | (k0, v0) :: rest, k, v =>
    if k0 = k then (k0, v) :: rest else (k0, v0) :: mset rest k v

/-- Scope-map read: some (entry) when the key is present (the entry
itself being none for the null sentinel), none when the property is
undefined. -/
def slookup : List (String × Option ScopeDesc) → String → Option (Option ScopeDesc)
  | [], _ => none
  | (k0, v) :: rest, k => if k0 = k then some v else slookup rest k

/-- Scope-map upsert (JS modelClass.scopes[scopeName] = value). -/
def supsertScope : List (String × Option ScopeDesc) → String → Option ScopeDesc →
    List (String × Option ScopeDesc)
  | [], k, v => [(k, v)]
  | (k0, v0) :: rest, k, v =>
    if k0 = k then (k0, v) :: rest else (k0, v0) :: supsertScope rest k v

/-- Apply f to the descriptor stored under key k (no effect on the
null sentinel or an absent key). -/
def scopesUpdate : List (String × Option ScopeDesc) → String → (ScopeDesc → ScopeDesc) →
    List (String × Option ScopeDesc)
  | [], _, _ => []
  | (k0, v) :: rest, k, f =>
    if k0 = k then (k0, v.map f) :: rest else (k0, v) :: scopesUpdate rest k f

/-- Operation-map upsert inside a scope descriptor
(scope.methods[apiName] = method). -/
def supsertMethod : List (String × Method) → String → Method → List (String × Method)
  | [], k, v => [(k, v)]
  | (k0, v0) :: rest, k, v =>
    if k0 = k then (k0, v) :: rest else (k0, v0) :: supsertMethod rest k v

/-- Read of the live prototype property _targetClass for a relation
name (modelPrototype[scopeName] && modelPrototype[scopeName]._targetClass). -/
def relLookup : List (String × String) → String → Option String
  | [], _ => none
  | (k0, v) :: rest, k => if k0 = k then some v else relLookup rest k

/-- ASCII lowercasing over the character list (the JS toLowerCase of
the names involved; kept list-based so that terms reduce). -/
def strToLower (s : String) : String :=
  String.mk (s.data.map Char.toLower)

/-- findModelByName from services.js lines 354-359, returning the
stored key of the first model whose key lowercases to the same string
as the requested name. -/
def findModelKeyByName : ModelsMap → String → Option String
  | [], _ => none
  | (k0, _) :: rest, name =>
    if strToLower k0 = strToLower name then some k0 else findModelKeyByName rest name

/-- Replace the element at index i (no-op out of range); models the
in-place mutation of one element of a JS array. -/
def listSet : List Method → Nat → Method → List Method
  | [], _, _ => []
  | _ :: rest, 0, v => v :: rest
  | x :: rest, n + 1, v => x :: listSet rest n v

/-- The scope entry recorded for (model, relation name):
some none is the null sentinel, some (some d) a live descriptor,
none an undefined entry (or an unknown model key). -/
def scopeEntry (models : ModelsMap) (modelName scopeName : String) :
    Option (Option ScopeDesc) :=
  (mlookup models modelName).bind (fun mc => slookup mc.scopes scopeName)

/-! ## Formatting and name matching -/

/-- getFormattedModelName from services.js lines 140-150. -/
def getFormattedModelName (modelName : String) (options : GenOptions) : String :=
  let resourceModelName := capitalizeFirst modelName
  if options.namespaceModels then
    options.ngModuleName ++ options.namespaceDelimiter ++ resourceModelName
  else
    resourceModelName

/-- SCOPE_METHOD_REGEX from services.js line 233: the anchored pattern
prototype, one arbitrary character (the unescaped dot), two
underscores, a nonempty run of non-underscore characters (the op), two
underscores, and a nonempty remainder (the scope name).  Returns
(op, scopeName) on a match. -/
def matchScopeMethod (name : String) : Option (String × String) :=
  match name.data with
  | 'p' :: 'r' :: 'o' :: 't' :: 'o' :: 't' :: 'y' :: 'p' :: 'e' :: _ :: '_' :: '_' :: rest =>
    let opChars := rest.takeWhile (fun c => c ≠ '_')
    if opChars.isEmpty then none
    else
      match rest.drop opChars.length with
      | '_' :: '_' :: snChars =>
        if snChars.isEmpty then none
        else some (String.mk opChars, String.mk snChars)
      | _ => none
  | _ => none

/-- The API-facing operation name derivation from services.js lines
293-300. -/
def deriveApiName (op scopeName : String) : String :=
  if op = "get" then scopeName
  else if op = "delete" then scopeName ++ ".destroyAll"
  else scopeName ++ "." ++ op

/-! ## Method augmentation (describeModels lines 176-217) -/

/-- The findResourceParams test at services.js line 205: the argument
is bound to the URL path and is not the implicit id parameter. -/
def isResourceParam (p : Param) : Bool :=
  p.httpSource = some "path" && p.arg ≠ "id"

/-- One step of the findResourceParams forEach at services.js lines
202-212: state is (resourceParams, hasResourceParams); the list is
created and the flag raised only on the first matching argument. -/
def scanStep (st : Option (List Param) × Bool) (arg : Param) :
    Option (List Param) × Bool :=
  if isResourceParam arg then
    match st.1 with
    | none => (some [arg], true)
    | some l => (some (l ++ [arg]), st.2)
  else st

/-- fixArgsOfPrototypeMethods from services.js lines 193-213 on one
method: skip when the rest class has no shared ctor or the method is
static; otherwise prepend the ctor parameters and scan the combined
list for resource parameters. -/
def fixArgsOne (ctor : Option CtorInfo) (me : Method) : Method :=
  match ctor with
  | none => me
  | some ci =>
    if me.isStatic then me
    else
      let accepts := ci.accepts ++ me.accepts
      let st := accepts.foldl scanStep (me.resourceParams, me.hasResourceParams)
      { me with accepts := accepts, resourceParams := st.1, hasResourceParams := st.2 }

/-- fixDescription from services.js lines 215-217 on one method. -/
def fixDescriptionMethod (me : Method) : Method :=
  { me with description := normalizeDescription me.description }

/-- Both in-place per-method passes, in source order. -/
def augmentOne (ctor : Option CtorInfo) (me : Method) : Method :=
  fixDescriptionMethod (fixArgsOne ctor me)

/-- The createMany duplication from services.js lines 176-187: when
the method list holds exactly one method literally named create, a
clone named createMany with an array-returning flag is appended. -/
def addCreateMany (methods : List Method) : List Method :=
  match methods.filter (fun me => me.name = "create") with
  | [c0] => methods ++ [{ c0 with name := "createMany", isReturningArray := true }]
  | _ => methods

/-- The full method augmentation of one retained class, in source
order: createMany duplication, then fixArgs, then description
normalization. -/
def augmentMethods (ctor : Option CtorInfo) (methods : List Method) : List Method :=
  ((addCreateMany methods).map (fixArgsOne ctor)).map fixDescriptionMethod

/-! ## Model collection (describeModels lines 152-231) -/

/-- One iteration of the getClasses().forEach callback at services.js
lines 156-222, threading the result map and the emitted diagnostics.
The ignore-list check precedes the shared-ctor check, as in the
source. -/
def collectStep (options : GenOptions) (acc : ModelsMap × List Diag)
    (c : RestClass) : ModelsMap × List Diag :=
  let name := getFormattedModelName c.name options
  if name ∈ options.modelsToIgnore then
    (acc.1, acc.2 ++ [.warnIgnored name])
  else
    match c.ctor with
    | none => (acc.1, acc.2 ++ [.errorNotModel name])
    | some ci =>
      let desc : ModelDesc := {
        rawName := c.name
        description := normalizeDescription c.sharedDescription
        methods := augmentMethods (some ci) c.methods
        scopes := []
        prototypeRels := c.prototypeRels
        isUser := c.isUserFlag }
      (mset acc.1 name desc, acc.2)

/-! ## Scope resolution (buildScopes, lines 233-352) -/

/-- The shared tail of buildScopeMethod (services.js lines 293-351),
entered once the scope entry for scopeName is a live descriptor:
derive the API name, annotate the original method (the element at
index i of the owning model) with the redirect note, push the reverse
method (and its createMany variant when the name mentions create)
onto the target model stored under the key rk, and store the scope
method(s) in the owning model's operation map.  In the source the
target key is re-resolved by findModelByName at line 316, after the
internal note was set at line 304; the note-setting update preserves
the key set, so resolving rk before the update (as the callers here
do) yields the same key. -/
def scopeTail (models : ModelsMap) (modelName : String) (i : Nat) (method : Method)
    (op scopeName rk : String) : ModelsMap :=
  let apiName := deriveApiName op scopeName
  let ngModelName := capitalizeFirst modelName
  let note := "Use " ++ ngModelName ++ "." ++ apiName ++ "() instead."
  let models1 := mupdate models modelName (fun mc =>
    { mc with methods := listSet mc.methods i { method with internal := some note } })
  let reverseName := "::" ++ op ++ "::" ++ modelName ++ "::" ++ scopeName
  let reverseMethod : Method :=
    { method with name := reverseName, internal := some note, deprecated := false }
  let models2 := mupdate models1 rk (fun rm =>
    { rm with methods := rm.methods ++ [reverseMethod] })
  let models3 :=
    if containsSub reverseName "create" then
      let cm : Method :=
        { reverseMethod with
          name := replaceFirst reverseName "create" "createMany"
          internal := some (replaceFirst note "create" "createMany")
          isReturningArray := true }
      mupdate models2 rk (fun rm => { rm with methods := rm.methods ++ [cm] })
    else models2
  let scopeMethod : Method :=
    { method with name := reverseName, deprecated := false, internal := none }
  let models4 := mupdate models3 modelName (fun mc =>
    { mc with scopes := scopesUpdate mc.scopes scopeName (fun sd =>
        { sd with methods := supsertMethod sd.methods apiName scopeMethod }) })
  if containsSub reverseName "create" then
    let scm : Method :=
      { scopeMethod with
        name := replaceFirst reverseName "create" "createMany"
        isReturningArray := true }
    let apiName2 := replaceFirst apiName "create" "createMany"
    mupdate models4 modelName (fun mc =>
      { mc with scopes := scopesUpdate mc.scopes scopeName (fun sd =>
          { sd with methods := supsertMethod sd.methods apiName2 scm }) })
  else models4

/-- buildScopeMethod from services.js lines 254-352, for the method at
index i of the model stored under modelName.  sw is the per-model
swagger filter app.models[modelName].sharedClass._swaggerMethods.
In the branch for an already-live descriptor the JS recomputes the
target model at line 316 with the truthiness and lookup outcome
already latched by the first match; an untruthy target or a failed
lookup on that branch is unreachable in a run of buildScopes (the
relation properties and the key set never change between the two
matches), and the JS would fail there; the embedding returns the map
unchanged on those dead branches. -/
def buildScopeMethodCore (sw : String → Option (List String)) (options : GenOptions)
    (models : ModelsMap) (modelName : String) (i : Nat) (method : Method) : ModelsMap :=
  match mlookup models modelName with
  | none => models
  | some modelClass =>
    match matchScopeMethod method.name with
    | none => models
    | some (op, scopeName) =>
      let targetClass := relLookup modelClass.prototypeRels scopeName
      match slookup modelClass.scopes scopeName with
      | some none => models
      | some (some _) =>
        match targetClass with
        | none => models
        | some t =>
          if t = "" then models
          else
            match findModelKeyByName models (getFormattedModelName t options) with
            | none => models
            | some rk => scopeTail models modelName i method op scopeName rk
      | none =>
        match targetClass with
        | none => models
        | some t =>
          if t = "" then models
          else
            let targetModelName := getFormattedModelName t options
            match findModelKeyByName models targetModelName with
            | none =>
              mupdate models modelName (fun mc =>
                { mc with scopes := supsertScope mc.scopes scopeName none })
            | some rk =>
              let methodName := replaceFirst method.name "prototype." ""
              let allowed : Bool :=
                match sw modelName with
                | some included => included.contains methodName
                | none => true
              if allowed then
                let models1 := mupdate models modelName (fun mc =>
                  { mc with scopes := (supsertScope mc.scopes scopeName
                      (some { methods := [], targetClass := targetModelName })) })
                scopeTail models1 modelName i method op scopeName rk
              else models

/-- One step of the methods.forEach in buildScopesOfModel, reading the
method at index i from the current state of the map (JS forEach reads
the live array element; only the element itself is mutated at its own
step, and elements appended during iteration lie beyond the initial
length and are not visited). -/
def buildScopeMethodAt (sw : String → Option (List String)) (options : GenOptions)
    (models : ModelsMap) (modelName : String) (i : Nat) : ModelsMap :=
  match mlookup models modelName with
  | none => models
  | some modelClass =>
    match modelClass.methods.get? i with
    | none => models
    | some method => buildScopeMethodCore sw options models modelName i method

/-- buildScopesOfModel from services.js lines 241-250: reset the scope
map, then process each method position present when the forEach
starts. -/
def buildScopesOfModel (sw : String → Option (List String)) (options : GenOptions)
    (models : ModelsMap) (modelName : String) : ModelsMap :=
  let models1 := mupdate models modelName (fun mc => { mc with scopes := [] })
  let n := match mlookup models1 modelName with
    | some mc => mc.methods.length
    | none => 0
  (List.range n).foldl (fun acc i => buildScopeMethodAt sw options acc modelName i) models1

/-- buildScopes from services.js lines 235-239: iterate the model keys
in insertion order (the key set does not change while scopes are
built). -/
def buildScopes (sw : String → Option (List String)) (options : GenOptions)
    (models : ModelsMap) : ModelsMap :=
  (models.map (fun kv => kv.1)).foldl
    (fun acc k => buildScopesOfModel sw options acc k) models

/-- describeModels from services.js lines 152-231: collect and augment
the classes, then resolve scopes across the full set.  The optional
schema snapshot (buildSchemas, config-gated at line 226) is outside
every claim and is not modelled.  Returns the result map together
with the non-fatal diagnostics emitted along the way. -/
def describeModels (app : App) (options : GenOptions) : ModelsMap × List Diag :=
  let collected := app.classes.foldl (collectStep options) ([], [])
  (buildScopes app.swaggerOf options collected.1, collected.2)

/-- The common-model prefix computation from services.js lines 90-99:
the reserved dot delimiter raises the configuration error; otherwise
every dot in moduleName plus delimiter is replaced by the delimiter. -/
def commonModelPfx (options : GenOptions) : Except GenError String :=
  if options.namespaceCommonModels then
    if options.namespaceDelimiter = "." then .error .unsupportedDelimiter
    else .ok (replaceAllDots (options.ngModuleName ++ options.namespaceDelimiter)
      options.namespaceDelimiter)
  else .ok "LoopBack"

/-- generateServices from services.js lines 66-133, up to the data
handed to the template.  The first component is the describeModels
result: the JS computes it (mutating the shared class metadata in
place) at line 86, before the delimiter check at lines 91-99, so it is
produced whether or not the configuration error is raised.  The
second component is the rendering outcome: the configuration error,
or the assembled render input (template text generation and the babel
transform are outside the model). -/
def generateServices (app : App) (options : GenOptions) :
    (ModelsMap × List Diag) × Except GenError RenderInput :=
  let described := describeModels app options
  (described,
    match commonModelPfx options with
    | .error e => .error e
    | .ok pfx => .ok {
        moduleName := options.ngModuleName
        models := described.1
        commonAuth := pfx ++ "Auth"
        commonAuthRequestInterceptor := pfx ++ "AuthRequestInterceptor"
        commonResource := pfx ++ "Resource"
        commonResourceProvider := pfx ++ "ResourceProvider"
        urlBase := stripTrailingSlashes options.apiUrl
        includeCommonModules := options.includeCommonModules
        comments := options.comments })

/-! ## Lemmas about the association-list operations -/

theorem mlookup_mupdate (m : ModelsMap) (k k' : String) (f : ModelDesc → ModelDesc) :
    mlookup (mupdate m k f) k' =
      if k' = k then (mlookup m k').map f else mlookup m k' := by
  induction m with
  | nil => by_cases h : k' = k <;> simp [mupdate, mlookup, h]
  | cons kv rest ih =>
    obtain ⟨k0, v⟩ := kv
    by_cases h0 : k0 = k
    · subst h0
      by_cases h1 : k0 = k'
      · subst h1
        simp [mupdate, mlookup]
      · have h1' : ¬(k' = k0) := fun h => h1 h.symm
        simp [mupdate, mlookup, h1, h1']
    · by_cases h1 : k0 = k'
      · subst h1
        have h0' : ¬(k0 = k) := h0
        simp [mupdate, mlookup, h0, h0']
      · have h1' : ¬(k' = k0) := fun h => h1 h.symm
        simp [mupdate, mlookup, h0, h1, h1', ih]

theorem findModelKeyByName_mupdate (m : ModelsMap) (k : String)
    (f : ModelDesc → ModelDesc) (name : String) :
    findModelKeyByName (mupdate m k f) name = findModelKeyByName m name := by
  induction m with
  | nil => simp [mupdate, findModelKeyByName]
  | cons kv rest ih =>
    obtain ⟨k0, v⟩ := kv
    by_cases h0 : k0 = k <;>
      by_cases h1 : strToLower k0 = strToLower name <;>
        simp [mupdate, findModelKeyByName, h0, h1, ih]

theorem mlookup_isSome_of_findKey (m : ModelsMap) (name k : String)
    (h : findModelKeyByName m name = some k) : ∃ v, mlookup m k = some v := by
  induction m with
  | nil => simp [findModelKeyByName] at h
  | cons kv rest ih =>
    obtain ⟨k0, v⟩ := kv
    by_cases h1 : strToLower k0 = strToLower name
    · simp [findModelKeyByName, h1] at h
      subst h
      exact ⟨v, by simp [mlookup]⟩
    · simp [findModelKeyByName, h1] at h
      obtain ⟨w, hw⟩ := ih h
      by_cases h2 : k0 = k
      · exact ⟨v, by simp [mlookup, h2]⟩
      · exact ⟨w, by simp [mlookup, h2, hw]⟩

theorem slookup_supsertScope (sc : List (String × Option ScopeDesc)) (k k' : String)
    (v : Option ScopeDesc) :
    slookup (supsertScope sc k v) k' = if k' = k then some v else slookup sc k' := by
  induction sc with
  | nil =>
    by_cases h : k' = k
    · simp [supsertScope, slookup, h]
    · have h' : ¬(k = k') := fun hh => h hh.symm
      simp [supsertScope, slookup, h, h']
  | cons kv rest ih =>
    obtain ⟨k0, v0⟩ := kv
    by_cases h0 : k0 = k
    · subst h0
      by_cases h1 : k0 = k'
      · subst h1
        simp [supsertScope, slookup]
      · have h1' : ¬(k' = k0) := fun h => h1 h.symm
        simp [supsertScope, slookup, h1, h1']
    · by_cases h1 : k0 = k'
      · subst h1
        have h0' : ¬(k0 = k) := h0
        simp [supsertScope, slookup, h0, h0']
      · have h1' : ¬(k' = k0) := fun h => h1 h.symm
        simp [supsertScope, slookup, h0, h1, h1', ih]

theorem slookup_scopesUpdate (sc : List (String × Option ScopeDesc)) (k k' : String)
    (g : ScopeDesc → ScopeDesc) :
    slookup (scopesUpdate sc k g) k' =
      if k' = k then (slookup sc k').map (Option.map g) else slookup sc k' := by
  induction sc with
  | nil => by_cases h : k' = k <;> simp [scopesUpdate, slookup, h]
  | cons kv rest ih =>
    obtain ⟨k0, v0⟩ := kv
    by_cases h0 : k0 = k
    · subst h0
      by_cases h1 : k0 = k'
      · subst h1
        simp [scopesUpdate, slookup]
      · have h1' : ¬(k' = k0) := fun h => h1 h.symm
        simp [scopesUpdate, slookup, h1, h1']
    · by_cases h1 : k0 = k'
      · subst h1
        have h0' : ¬(k0 = k) := h0
        simp [scopesUpdate, slookup, h0, h0']
      · have h1' : ¬(k' = k0) := fun h => h1 h.symm
        simp [scopesUpdate, slookup, h0, h1, h1', ih]

theorem scopeTail_mem_reverse (models : ModelsMap) (mn : String) (i : Nat) (me : Method)
    (op s rk : String) (rm0 : ModelDesc) (h : mlookup models rk = some rm0) :
    ∃ rm, mlookup (scopeTail models mn i me op s rk) rk = some rm ∧
      ("::" ++ op ++ "::" ++ mn ++ "::" ++ s) ∈ rm.methods.map Method.name := by
  by_cases hrk : rk = mn
  · subst hrk
    by_cases hc : containsSub ("::" ++ op ++ "::" ++ rk ++ "::" ++ s) "create"
    · simp [scopeTail, hc, mlookup_mupdate, h, List.mem_map]
      exact ⟨_, Or.inr (Or.inl rfl), rfl⟩
    · simp [scopeTail, hc, mlookup_mupdate, h, List.mem_map]
      exact ⟨_, Or.inr rfl, rfl⟩
  · by_cases hc : containsSub ("::" ++ op ++ "::" ++ mn ++ "::" ++ s) "create"
    · simp [scopeTail, hc, mlookup_mupdate, hrk, h, List.mem_map]
      exact ⟨_, Or.inr (Or.inl rfl), rfl⟩
    · simp [scopeTail, hc, mlookup_mupdate, hrk, h, List.mem_map]
      exact ⟨_, Or.inr rfl, rfl⟩

theorem scopeTail_scopeEntry (models : ModelsMap) (mn : String) (i : Nat) (me : Method)
    (op s rk : String) (d : ScopeDesc) (h : scopeEntry models mn s = some (some d)) :
    ∃ d2, scopeEntry (scopeTail models mn i me op s rk) mn s = some (some d2) ∧
      d2.targetClass = d.targetClass := by
  rcases hmc : mlookup models mn with _ | mc
  · simp [scopeEntry, hmc] at h
  · simp [scopeEntry, hmc] at h
    by_cases hrk : rk = mn
    · subst hrk
      by_cases hc : containsSub ("::" ++ op ++ "::" ++ rk ++ "::" ++ s) "create" <;>
        simp [scopeTail, scopeEntry, hc, mlookup_mupdate, slookup_scopesUpdate, hmc, h]
    · have hrk' : ¬(mn = rk) := fun hh => hrk hh.symm
      by_cases hc : containsSub ("::" ++ op ++ "::" ++ mn ++ "::" ++ s) "create" <;>
        simp [scopeTail, scopeEntry, hc, mlookup_mupdate, slookup_scopesUpdate, hrk, hrk',
          hmc, h]

/-! ## Small facts about the per-method augmentation passes -/

theorem fixArgsOne_name (ctor : Option CtorInfo) (me : Method) :
    (fixArgsOne ctor me).name = me.name := by
  cases ctor with
  | none => rfl
  | some ci =>
    by_cases h : me.isStatic <;> simp [fixArgsOne, h]

theorem fixArgsOne_isReturningArray (ctor : Option CtorInfo) (me : Method) :
    (fixArgsOne ctor me).isReturningArray = me.isReturningArray := by
  cases ctor with
  | none => rfl
  | some ci =>
    by_cases h : me.isStatic <;> simp [fixArgsOne, h]

theorem augmentOne_name (ctor : Option CtorInfo) (me : Method) :
    (augmentOne ctor me).name = me.name := by
  rw [augmentOne, fixDescriptionMethod]
  exact fixArgsOne_name ctor me

theorem augmentOne_isReturningArray (ctor : Option CtorInfo) (me : Method) :
    (augmentOne ctor me).isReturningArray = me.isReturningArray := by
  rw [augmentOne, fixDescriptionMethod]
  exact fixArgsOne_isReturningArray ctor me

theorem augmentOne_accepts (ctor : Option CtorInfo) (me : Method) :
    (augmentOne ctor me).accepts = (fixArgsOne ctor me).accepts := rfl

/-- The accepted-parameter outcome of the fixArgs pass only depends on
the static flag, the parameter list and the resource-parameter state,
so a clone that overrides name and return arity gets the same
parameters as its origin. -/
theorem fixArgsOne_accepts_clone (ctor : Option CtorInfo) (me : Method)
    (n : String) (b : Bool) :
    (fixArgsOne ctor { me with name := n, isReturningArray := b }).accepts =
      (fixArgsOne ctor me).accepts := by
  cases ctor with
  | none => rfl
  | some ci =>
    by_cases h : me.isStatic <;> simp [fixArgsOne, h]

/-! ## Concrete fixtures used by witnesses and counterexamples -/

/-- A minimal static create method. -/
def createM : Method :=
  { name := "create", isStatic := true,
    accepts := [{ arg := "data", httpSource := none }],
    isReturningArray := false, description := .str "" }

def exCtor : CtorInfo := { accepts := [{ arg := "id", httpSource := some "path" }] }

/-- A sample instance method with an extra path parameter. -/
def exInstMethod : Method :=
  { name := "prototype.updateAttributes", isStatic := false,
    accepts := [{ arg := "fk", httpSource := some "path" },
      { arg := "data", httpSource := none }],
    isReturningArray := false, description := .str "" }

/-- Claim C3: for every collected model, if its method list contains
exactly one method literally named create, the augmented list is the
augmented original methods plus one extra method named createMany
whose return-arity flag reports array and whose parameters are
identical to the (augmented) create method parameters; with zero or
more than one create method the augmented list is exactly the
augmented original methods (nothing added, no error: the function is
total). -/
theorem c3_createMany_clone (ctor : Option CtorInfo) (methods : List Method) :
    (∀ c0, methods.filter (fun me => me.name = "create") = [c0] →
      ∃ cm, augmentMethods ctor methods = methods.map (augmentOne ctor) ++ [cm] ∧
        cm.name = "createMany" ∧ cm.isReturningArray = true ∧
        cm.accepts = (augmentOne ctor c0).accepts) ∧
    ((methods.filter (fun me => me.name = "create")).length ≠ 1 →
      augmentMethods ctor methods = methods.map (augmentOne ctor)) := by
  constructor
  · intro c0 hf
    refine ⟨augmentOne ctor { c0 with name := "createMany", isReturningArray := true },
      ?_, ?_, ?_, ?_⟩
    · simp [augmentMethods, addCreateMany, hf, augmentOne, List.map_append, List.map_map]
    · rw [augmentOne_name]
    · rw [augmentOne_isReturningArray]
    · rw [augmentOne_accepts, augmentOne_accepts, fixArgsOne_accepts_clone]
  · intro hlen
    rcases hf : methods.filter (fun me => me.name = "create") with _ | ⟨c0, _ | ⟨c1, t⟩⟩
    · simp [augmentMethods, addCreateMany, hf, augmentOne, List.map_map]
    · exact absurd (by simp [hf]) hlen
    · simp [augmentMethods, addCreateMany, hf, augmentOne, List.map_map]

/-- Witness for C3 at a concrete one-create method list. -/
theorem c3_witness :
    ∃ cm, augmentMethods none [createM] = [createM].map (augmentOne none) ++ [cm] ∧
      cm.name = "createMany" ∧ cm.isReturningArray = true ∧
      cm.accepts = (augmentOne none createM).accepts :=
  (c3_createMany_clone none [createM]).1 createM (by decide)

/-- Claim C4: for every instance method of a model whose shared ctor
is present, the fixArgs pass makes the accepted parameters the ctor
parameters followed by the method parameters, in that order; with no
shared ctor the method is left unchanged by this step; the
description pass does not affect parameters, and every original
method has its augmented image in the augmented list. -/
theorem c4_ctor_params_prepended (ctor : Option CtorInfo) (ci : CtorInfo)
    (me : Method) (methods : List Method) :
    (ctor = some ci → me.isStatic = false →
      (fixArgsOne ctor me).accepts = ci.accepts ++ me.accepts) ∧
    (ctor = none → fixArgsOne ctor me = me) ∧
    (augmentOne ctor me).accepts = (fixArgsOne ctor me).accepts ∧
    (me ∈ methods → augmentOne ctor me ∈ augmentMethods ctor methods) := by
  refine ⟨?_, ?_, rfl, ?_⟩
  · rintro rfl h2
    simp [fixArgsOne, h2]
  · rintro rfl
    rfl
  · intro hmem
    have h1 : me ∈ addCreateMany methods := by
      rcases hf : methods.filter (fun me => me.name = "create") with _ | ⟨c0, _ | ⟨c1, t⟩⟩ <;>
        simp [addCreateMany, hf, hmem]
    simp only [augmentMethods, List.map_map, List.mem_map]
    exact ⟨me, h1, rfl⟩

/-- Witness for C4 at a concrete instance method and ctor. -/
theorem c4_witness :
    (fixArgsOne (some exCtor) exInstMethod).accepts =
      exCtor.accepts ++ exInstMethod.accepts ∧
    fixArgsOne none exInstMethod = exInstMethod :=
  ⟨(c4_ctor_params_prepended (some exCtor) exCtor exInstMethod []).1 rfl rfl,
   (c4_ctor_params_prepended none exCtor exInstMethod []).2.1 rfl⟩

/-- Claim C5: the derived API-facing operation name is the bare scope
name for the get op, scopeName.destroyAll for the delete op, and
scopeName.op for any other op. -/
theorem c5_apiName (op scopeName : String) :
    deriveApiName "get" scopeName = scopeName ∧
    deriveApiName "delete" scopeName = scopeName ++ ".destroyAll" ∧
    (op ≠ "get" → op ≠ "delete" →
      deriveApiName op scopeName = scopeName ++ "." ++ op) := by
  refine ⟨rfl, ?_, ?_⟩
  · simp [deriveApiName]
  · intro h1 h2
    simp [deriveApiName, h1, h2]

/-- Witness for C5 at a concrete non-get, non-delete op. -/
theorem c5_witness : deriveApiName "link" "items" = "items" ++ "." ++ "link" :=
  (c5_apiName "link" "items").2.2 (by decide) (by decide)

/-- Claim C9: with two configurations differing only in the
namespaceModels flag, the namespaced formatted name is exactly the
module name, the delimiter, and then the non-namespaced formatted
name. -/
theorem c9_namespace_roundtrip (modelName : String) (o : GenOptions)
    (h : modelName ≠ "") :
    getFormattedModelName modelName { o with namespaceModels := true } =
      o.ngModuleName ++ o.namespaceDelimiter ++
        getFormattedModelName modelName { o with namespaceModels := false } := by
  simp [getFormattedModelName]

/-- Witness for C9 at a concrete model name and the default options. -/
theorem c9_witness :
    getFormattedModelName "gadget" { ({} : GenOptions) with namespaceModels := true } =
      ({} : GenOptions).ngModuleName ++ ({} : GenOptions).namespaceDelimiter ++
        getFormattedModelName "gadget" { ({} : GenOptions) with namespaceModels := false } :=
  c9_namespace_roundtrip "gadget" {} (by decide)

/-! ## The resource-parameter scan -/

theorem foldl_scanStep_some (l : List Param) (acc : List Param) (b : Bool) :
    l.foldl scanStep (some acc, b) = (some (acc ++ l.filter isResourceParam), b) := by
  induction l generalizing acc with
  | nil => simp
  | cons a t ih =>
    by_cases ha : isResourceParam a <;>
      simp [scanStep, ha, ih, List.filter_cons]

theorem foldl_scanStep_none (l : List Param) (b : Bool) :
    l.foldl scanStep (none, b) =
      (if (l.filter isResourceParam).isEmpty then ((none : Option (List Param)), b)
       else (some (l.filter isResourceParam), true)) := by
  induction l with
  | nil => simp
  | cons a t ih =>
    by_cases ha : isResourceParam a
    · simp [scanStep, ha, foldl_scanStep_some, List.filter_cons]
    · simp [scanStep, ha, ih, List.filter_cons]

/-- A static method with a path parameter other than id, for which the
source never runs the resource-parameter scan. -/
def exStaticPath : Method :=
  { name := "stats", isStatic := true,
    accepts := [{ arg := "location", httpSource := some "path" }],
    isReturningArray := false, description := .str "" }

/-- Claim C7 counterexample: a static method with a path-sourced
parameter named location (not the implicit id) comes out of the
augmentation with no resource-parameter list and an unraised flag,
because the scan sits behind the early return for static methods at
services.js line 195; the claim promises the parameter is appended
and the method marked for every method, static or instance. -/
theorem c7_counterexample :
    isResourceParam { arg := "location", httpSource := some "path" } = true ∧
    (fixArgsOne (some exCtor) exStaticPath).resourceParams = none ∧
    (fixArgsOne (some exCtor) exStaticPath).hasResourceParams = false ∧
    augmentMethods (some exCtor) [exStaticPath] =
      [fixDescriptionMethod exStaticPath] := by
  refine ⟨rfl, rfl, rfl, by decide⟩

/-- Claim C7 (amended): only for an instance (non-static) method of a
model with a shared ctor does the scan run, over the already-combined
parameter list (ctor parameters included); every path-sourced
parameter of that list whose name is not id is collected, in order,
into the resource-parameter list, and the flag is raised exactly when
at least one such parameter exists (for a method entering the pass
with no prior resource-parameter state). -/
theorem c7_resource_params (ci : CtorInfo) (me : Method)
    (h1 : me.isStatic = false) (h2 : me.resourceParams = none)
    (h3 : me.hasResourceParams = false) :
    (fixArgsOne (some ci) me).resourceParams =
      (if ((ci.accepts ++ me.accepts).filter isResourceParam).isEmpty then none
       else some ((ci.accepts ++ me.accepts).filter isResourceParam)) ∧
    (fixArgsOne (some ci) me).hasResourceParams =
      !((ci.accepts ++ me.accepts).filter isResourceParam).isEmpty := by
  have key : fixArgsOne (some ci) me =
      { me with
        accepts := ci.accepts ++ me.accepts,
        resourceParams := ((ci.accepts ++ me.accepts).foldl scanStep (none, false)).1,
        hasResourceParams := ((ci.accepts ++ me.accepts).foldl scanStep (none, false)).2 } := by
    simp [fixArgsOne, h1, h2, h3]
  rw [key, foldl_scanStep_none]
  by_cases hemp : ((ci.accepts ++ me.accepts).filter isResourceParam).isEmpty
  · simp only [hemp, if_true, Bool.not_true]
    simp
  · have hemp' : ((ci.accepts ++ me.accepts).filter isResourceParam).isEmpty = false := by
      simpa using hemp
    simp only [hemp', Bool.false_eq_true, if_false, Bool.not_false]
    simp

/-- Witness for the amended C7 at a concrete instance method. -/
theorem c7_witness :
    (fixArgsOne (some exCtor) exInstMethod).resourceParams =
      (if ((exCtor.accepts ++ exInstMethod.accepts).filter isResourceParam).isEmpty
       then none
       else some ((exCtor.accepts ++ exInstMethod.accepts).filter isResourceParam)) ∧
    (fixArgsOne (some exCtor) exInstMethod).hasResourceParams =
      !((exCtor.accepts ++ exInstMethod.accepts).filter isResourceParam).isEmpty :=
  c7_resource_params exCtor exInstMethod rfl rfl rfl

/-! ## Claim C8: classes without introspection metadata -/

/-- A class that lacks the shared ctor (not a genuine model). -/
def clsNoCtor : RestClass :=
  { name := "x", ctor := none, methods := [], sharedDescription := .str "",
    prototypeRels := [], isUserFlag := false }

/-- An app whose only class lacks the shared ctor; its formatted name
X is also in the ignore list of optsC8. -/
def appC8 : App := { classes := [clsNoCtor], swaggerOf := fun _ => none }

def optsC8 : GenOptions := { modelsToIgnore := ["X"] }

/-- Claim C8 counterexample: a class that lacks the shared ctor but is
also named in the ignore list is skipped at the ignore check, which
comes first (services.js line 162), so the whole run emits only the
ignore warning and no error diagnostic, although the claim promises
an error diagnostic for every such class. -/
theorem c8_counterexample :
    (describeModels appC8 optsC8).2 = [Diag.warnIgnored "X"] ∧
    (describeModels appC8 optsC8).1 = [] := by
  exact ⟨by decide, by decide⟩

/-- Claim C8 (amended): a class without the shared ctor is omitted
from the result map and contributes exactly one non-fatal diagnostic;
the diagnostic is the not-a-model error unless the formatted name is
in the ignore list, in which case the ignore warning is emitted
instead; the collection step is total, so processing continues. -/
theorem c8_nonmodel_skipped (options : GenOptions) (acc : ModelsMap × List Diag)
    (c : RestClass) (h : c.ctor = none) :
    (collectStep options acc c).1 = acc.1 ∧
    (collectStep options acc c).2 = acc.2 ++
      [if getFormattedModelName c.name options ∈ options.modelsToIgnore
       then Diag.warnIgnored (getFormattedModelName c.name options)
       else Diag.errorNotModel (getFormattedModelName c.name options)] := by
  by_cases hi : getFormattedModelName c.name options ∈ options.modelsToIgnore <;>
    simp [collectStep, h, hi]

/-- Witness for the amended C8 at the concrete ctor-less class. -/
theorem c8_witness :
    (collectStep optsC8 ([], []) clsNoCtor).1 = [] ∧
    (collectStep optsC8 ([], []) clsNoCtor).2 = [] ++
      [if getFormattedModelName clsNoCtor.name optsC8 ∈ optsC8.modelsToIgnore
       then Diag.warnIgnored (getFormattedModelName clsNoCtor.name optsC8)
       else Diag.errorNotModel (getFormattedModelName clsNoCtor.name optsC8)] :=
  c8_nonmodel_skipped optsC8 ([], []) clsNoCtor rfl

/-! ## Claim C6: timing of the configuration error -/

/-- A genuine class carrying a create method, so that collection
observably augments it. -/
def clsFoo : RestClass :=
  { name := "foo", ctor := some { accepts := [] }, methods := [createM],
    sharedDescription := .str "", prototypeRels := [], isUserFlag := false }

def appC6 : App := { classes := [clsFoo], swaggerOf := fun _ => none }

def optsC6 : GenOptions := { namespaceCommonModels := true }

/-- Claim C6 counterexample: with common-model namespacing on and the
reserved dot delimiter, the invocation does raise the configuration
error, but the very same invocation has already run the model
collection and method augmentation: its collected map contains Foo
with the synthesized createMany method, so the error is not raised
before generation work (services.js calls describeModels at line 86,
before the delimiter check at lines 91-99). -/
theorem c6_counterexample :
    (generateServices appC6 optsC6).2 = .error .unsupportedDelimiter ∧
    ((mlookup (generateServices appC6 optsC6).1.1 "Foo").map
      (fun mc => mc.methods.map Method.name)) = some ["create", "createMany"] := by
  exact ⟨rfl, by decide⟩

/-- Claim C6 (amended): the reserved-delimiter configuration error is
raised before any render input is produced, but after model
collection, method augmentation and scope resolution: the erroring
invocation still carries the full describeModels result (the shared
class metadata has already been processed and mutated). -/
theorem c6_error_after_collection (app : App) (options : GenOptions)
    (h1 : options.namespaceCommonModels = true)
    (h2 : options.namespaceDelimiter = ".") :
    (generateServices app options).2 = .error .unsupportedDelimiter ∧
    (generateServices app options).1 = describeModels app options := by
  constructor
  · simp [generateServices, commonModelPfx, h1, h2]
  · rfl

/-- Witness for the amended C6 at the concrete app and options. -/
theorem c6_witness :
    (generateServices appC6 optsC6).2 = .error .unsupportedDelimiter ∧
    (generateServices appC6 optsC6).1 = describeModels appC6 optsC6 :=
  c6_error_after_collection appC6 optsC6 rfl rfl

/-! ## Claim C10: the URL base handed to the renderer -/

theorem getLast?_reverse_eq_head? {α : Type} (l : List α) :
    l.reverse.getLast? = l.head? := by
  cases l with
  | nil => rfl
  | cons a t =>
    simp [List.reverse_cons, List.getLast?_append_cons]

theorem head?_dropWhile_false {α : Type} (p : α → Bool) (l : List α) :
    ∀ x, (l.dropWhile p).head? = some x → p x = false := by
  induction l with
  | nil => intro x h; simp [List.dropWhile] at h
  | cons a t ih =>
    intro x h
    by_cases hp : p a
    · rw [List.dropWhile_cons_of_pos hp] at h
      exact ih x h
    · rw [List.dropWhile_cons_of_neg hp] at h
      simp only [List.head?_cons, Option.some.injEq] at h
      subst h
      simpa using hp

/-- The stripped URL is the original minus a maximal run of trailing
slashes: the original equals the stripped value followed by some
number of slashes, and the stripped value does not end in a slash. -/
theorem stripTrailingSlashes_spec (s : String) :
    (∃ k, s.data = (stripTrailingSlashes s).data ++ List.replicate k '/') ∧
    (stripTrailingSlashes s).data.getLast? ≠ some '/' := by
  constructor
  · refine ⟨(s.data.reverse.takeWhile (fun c => c = '/')).length, ?_⟩
    have hsplit := List.takeWhile_append_dropWhile
      (p := fun c => decide (c = '/')) (l := s.data.reverse)
    have htake : s.data.reverse.takeWhile (fun c => decide (c = '/')) =
        List.replicate (s.data.reverse.takeWhile (fun c => decide (c = '/'))).length '/' := by
      rw [List.eq_replicate_length]
      intro b hb
      have := List.mem_takeWhile_imp hb
      simpa using this
    calc s.data = s.data.reverse.reverse := by rw [List.reverse_reverse]
      _ = (s.data.reverse.takeWhile (fun c => decide (c = '/')) ++
            s.data.reverse.dropWhile (fun c => decide (c = '/'))).reverse := by rw [hsplit]
      _ = (s.data.reverse.dropWhile (fun c => decide (c = '/'))).reverse ++
            (s.data.reverse.takeWhile (fun c => decide (c = '/'))).reverse := by
            rw [List.reverse_append]
      _ = (stripTrailingSlashes s).data ++
            List.replicate (s.data.reverse.takeWhile (fun c => decide (c = '/'))).length '/' := by
            rw [stripTrailingSlashes]
            rw [htake]
            simp [List.reverse_replicate]
  · intro hlast
    have h1 : (stripTrailingSlashes s).data.getLast? =
        (s.data.reverse.dropWhile (fun c => decide (c = '/'))).head? := by
      rw [stripTrailingSlashes]
      exact getLast?_reverse_eq_head? _
    rw [h1] at hlast
    have := head?_dropWhile_false (fun c => decide (c = '/')) s.data.reverse '/' hlast
    simp at this

/-- Claim C10: the URL base handed to the renderer is the configured
apiUrl with exactly its trailing slashes removed and nothing else
altered: it equals stripTrailingSlashes apiUrl, the original apiUrl is
that base plus some run of slashes, the base does not end in a slash,
and in particular trailing-slash variants collapse to the same base
and a bare slash yields the empty string. -/
theorem c10_urlBase (app : App) (options : GenOptions) (ri : RenderInput)
    (h : (generateServices app options).2 = .ok ri) :
    ri.urlBase = stripTrailingSlashes options.apiUrl ∧
    (∃ k, options.apiUrl.data = ri.urlBase.data ++ List.replicate k '/') ∧
    ri.urlBase.data.getLast? ≠ some '/' ∧
    stripTrailingSlashes "http://x/api///" = stripTrailingSlashes "http://x/api" ∧
    stripTrailingSlashes "/" = "" := by
  have hurl : ri.urlBase = stripTrailingSlashes options.apiUrl := by
    rcases hcp : commonModelPfx options with e | pfx <;>
      simp [generateServices, hcp] at h
    rw [← h]
  refine ⟨hurl, ?_, ?_, by decide, by decide⟩
  · rw [hurl]
    exact (stripTrailingSlashes_spec options.apiUrl).1
  · rw [hurl]
    exact (stripTrailingSlashes_spec options.apiUrl).2

def optsC10 : GenOptions := { apiUrl := "http://x/api///" }

/-- The render input produced for appC6 with optsC10. -/
def riC10 : RenderInput :=
  { moduleName := "lbServices", models := (describeModels appC6 optsC10).1,
    commonAuth := "LoopBackAuth",
    commonAuthRequestInterceptor := "LoopBackAuthRequestInterceptor",
    commonResource := "LoopBackResource",
    commonResourceProvider := "LoopBackResourceProvider",
    urlBase := stripTrailingSlashes "http://x/api///",
    includeCommonModules := true, comments := false }

/-- Witness for C10 at a concrete configuration with trailing
slashes. -/
theorem c10_witness :
    riC10.urlBase = stripTrailingSlashes optsC10.apiUrl ∧
    riC10.urlBase = "http://x/api" :=
  ⟨(c10_urlBase appC6 optsC10 riC10 rfl).1, by decide⟩

/-! ## Claim C1: the reverse method name -/

theorem mlookup_mupdate_isSome (m : ModelsMap) (k rk : String)
    (f : ModelDesc → ModelDesc) (rm0 : ModelDesc) (h : mlookup m rk = some rm0) :
    ∃ v, mlookup (mupdate m k f) rk = some v := by
  rw [mlookup_mupdate]
  by_cases hrk : rk = k
  · subst hrk
    simp [h]
  · simp [hrk, h]

/-- A minimal instance relation method. -/
def mkRelMethod (name : String) : Method :=
  { name := name, isStatic := false, accepts := [], isReturningArray := false,
    description := .str "" }

def clsGadget : RestClass :=
  { name := "Gadget", ctor := some { accepts := [] },
    methods := [mkRelMethod "prototype.__get__widgets"],
    sharedDescription := .str "", prototypeRels := [("widgets", "Widget")],
    isUserFlag := false }

def clsWidget : RestClass :=
  { name := "Widget", ctor := some { accepts := [] }, methods := [],
    sharedDescription := .str "", prototypeRels := [], isUserFlag := false }

def appC1 : App := { classes := [clsGadget, clsWidget], swaggerOf := fun _ => none }

/-- Claim C1 counterexample: for the resolvable relation widgets with
op get on model Gadget targeting Widget, the scope resolves (the
Gadget scope map has a live widgets entry targeting Widget), and the
reverse method appended to Widget is named ::get::Gadget::widgets,
built from the formatted map key; no method named
::get::gadget::widgets (built from the lowercase declared name, as
the claim asserts) exists anywhere in the result. -/
theorem c1_counterexample :
    ((describeModels appC1 {}).1.map
      (fun kv => (kv.1, kv.2.methods.map Method.name))) =
      [("Gadget", ["prototype.__get__widgets"]),
       ("Widget", ["::get::Gadget::widgets"])] ∧
    ((mlookup (describeModels appC1 {}).1 "Gadget").map
      (fun mc => mc.scopes.map (fun sc => (sc.1, sc.2.map ScopeDesc.targetClass)))) =
      some [("widgets", some "Widget")] := by
  exact ⟨by decide, by decide⟩

/-- Claim C1 (amended): for every relation method prototype.__op__s of
the model stored under the key modelName whose relation target is
truthy and resolves to a known model stored under the key rk (and, on
the first match for the relation, the swagger filter, when present,
includes the bare method name), processing the method appends to the
target model a reverse method named ::op::modelName::s, where
modelName is the formatted key under which the source model is stored
(capitalized, and namespaced when configured) rather than the
lowercase declared model name. -/
theorem c1_reverse_formatted (sw : String → Option (List String))
    (options : GenOptions) (models : ModelsMap) (modelName : String) (i : Nat)
    (method : Method) (op s t rk : String) (mc : ModelDesc)
    (hmc : mlookup models modelName = some mc)
    (hp : matchScopeMethod method.name = some (op, s))
    (ht : relLookup mc.prototypeRels s = some t) (ht0 : t ≠ "")
    (hfind : findModelKeyByName models (getFormattedModelName t options) = some rk)
    (hentry : (slookup mc.scopes s = none ∧
        ((sw modelName).map (fun included =>
          included.contains (replaceFirst method.name "prototype." ""))).getD true
          = true) ∨
      (∃ d, slookup mc.scopes s = some (some d))) :
    ∃ rm,
      mlookup (buildScopeMethodCore sw options models modelName i method) rk = some rm ∧
      ("::" ++ op ++ "::" ++ modelName ++ "::" ++ s) ∈ rm.methods.map Method.name := by
  obtain ⟨rm0, hrm0⟩ :=
    mlookup_isSome_of_findKey models (getFormattedModelName t options) rk hfind
  rcases hentry with ⟨hsl, hsw⟩ | ⟨d, hsl⟩
  · rcases hswv : sw modelName with _ | inc
    · simp only [buildScopeMethodCore, hmc, hp, hsl, ht, hswv, hfind]
      rw [if_neg ht0]
      obtain ⟨rm1, hrm1⟩ := mlookup_mupdate_isSome models modelName rk _ rm0 hrm0
      exact scopeTail_mem_reverse _ modelName i method op s rk rm1 hrm1
    · rw [hswv] at hsw
      simp only [Option.map_some', Option.getD_some] at hsw
      simp only [buildScopeMethodCore, hmc, hp, hsl, ht, hswv, hfind]
      rw [if_neg ht0, if_pos hsw]
      obtain ⟨rm1, hrm1⟩ := mlookup_mupdate_isSome models modelName rk _ rm0 hrm0
      exact scopeTail_mem_reverse _ modelName i method op s rk rm1 hrm1
  · simp only [buildScopeMethodCore, hmc, hp, hsl, ht, hfind]
    rw [if_neg ht0]
    exact scopeTail_mem_reverse _ modelName i method op s rk rm0 hrm0

def mdlGadget : ModelDesc :=
  { rawName := "Gadget", description := .str "",
    methods := [mkRelMethod "prototype.__get__widgets"], scopes := [],
    prototypeRels := [("widgets", "Widget")], isUser := false }

def mdlWidget : ModelDesc :=
  { rawName := "Widget", description := .str "", methods := [], scopes := [],
    prototypeRels := [], isUser := false }

def modelsC1 : ModelsMap := [("Gadget", mdlGadget), ("Widget", mdlWidget)]

/-- Witness for the amended C1 at the Gadget/Widget pair. -/
theorem c1_witness :
    ∃ rm,
      mlookup (buildScopeMethodCore (fun _ => none) {} modelsC1 "Gadget" 0
        (mkRelMethod "prototype.__get__widgets")) "Widget" = some rm ∧
      ("::" ++ "get" ++ "::" ++ "Gadget" ++ "::" ++ "widgets") ∈
        rm.methods.map Method.name :=
  c1_reverse_formatted (fun _ => none) {} modelsC1 "Gadget" 0
    (mkRelMethod "prototype.__get__widgets") "get" "widgets" "Widget" "Widget"
    mdlGadget (by decide) (by decide) (by decide) (by decide) (by decide)
    (Or.inl ⟨by decide, by decide⟩)

/-! ## Claim C2: the per-relation latch -/

def clsM : RestClass :=
  { name := "m", ctor := some { accepts := [] },
    methods := [mkRelMethod "prototype.__get__s", mkRelMethod "prototype.__create__s"],
    sharedDescription := .str "", prototypeRels := [("s", "t")], isUserFlag := false }

def clsT : RestClass :=
  { name := "t", ctor := some { accepts := [] }, methods := [],
    sharedDescription := .str "", prototypeRels := [], isUserFlag := false }

/-- An app where the swagger filter of model M admits only the create
variant of the relation methods for s. -/
def appC2 : App :=
  { classes := [clsM, clsT],
    swaggerOf := fun n => if n = "M" then some ["__create__s"] else none }

/-- Claim C2 counterexample: the method prototype.__get__s of M
matches the reverse-relation pattern and is excluded by the swagger
filter (its bare name is not listed), yet at the end of the run the
scope map of M holds a live (non-null) entry for s, created by the
later non-excluded method prototype.__create__s; so an excluded match
does not prevent the pair (M, s) from gaining a non-null entry. -/
theorem c2_counterexample :
    matchScopeMethod "prototype.__get__s" = some ("get", "s") ∧
    (appC2.swaggerOf "M").map (fun l => l.contains "__get__s") = some false ∧
    ((scopeEntry (describeModels appC2 {}).1 "M" "s").map
      (fun e => e.map ScopeDesc.targetClass)) = some (some "T") := by
  exact ⟨by decide, by decide, by decide⟩

/-- Claim C2 (amended): for every method matching the reverse-relation
pattern for relation name s on the model stored under modelName:
once the null sentinel is recorded for (model, s), processing is
skipped with no effect at all; a method whose relation target is not
truthy records nothing; a truthy target that resolves to no known
model records exactly the null sentinel (never a live descriptor); a
method excluded by the swagger filter records nothing for the pair,
though it does not prevent a later non-excluded method from creating
the descriptor; and once a live descriptor exists it is never
replaced: later matches keep its target and only merge operations, so
at most one descriptor is ever created per (model, relation) pair. -/
theorem c2_scope_latch (sw : String → Option (List String)) (options : GenOptions)
    (models : ModelsMap) (modelName : String) (i : Nat) (method : Method)
    (op s : String) (hp : matchScopeMethod method.name = some (op, s)) :
    (scopeEntry models modelName s = some none →
      buildScopeMethodCore sw options models modelName i method = models) ∧
    (∀ mc, mlookup models modelName = some mc → slookup mc.scopes s = none →
      (relLookup mc.prototypeRels s = none ∨ relLookup mc.prototypeRels s = some "") →
      buildScopeMethodCore sw options models modelName i method = models) ∧
    (∀ mc t, mlookup models modelName = some mc → slookup mc.scopes s = none →
      relLookup mc.prototypeRels s = some t → t ≠ "" →
      findModelKeyByName models (getFormattedModelName t options) = none →
      scopeEntry (buildScopeMethodCore sw options models modelName i method) modelName s
        = some none) ∧
    (∀ mc t inc, mlookup models modelName = some mc → slookup mc.scopes s = none →
      relLookup mc.prototypeRels s = some t → t ≠ "" →
      (∃ rk, findModelKeyByName models (getFormattedModelName t options) = some rk) →
      sw modelName = some inc →
      inc.contains (replaceFirst method.name "prototype." "") = false →
      buildScopeMethodCore sw options models modelName i method = models) ∧
    (∀ d, scopeEntry models modelName s = some (some d) →
      ∃ d2, scopeEntry (buildScopeMethodCore sw options models modelName i method)
          modelName s = some (some d2) ∧ d2.targetClass = d.targetClass) := by
  refine ⟨?_, ?_, ?_, ?_, ?_⟩
  · intro hse
    rcases hmc : mlookup models modelName with _ | mc
    · simp [buildScopeMethodCore, hmc]
    · rw [scopeEntry, hmc] at hse
      simp only [Option.some_bind] at hse
      simp [buildScopeMethodCore, hmc, hp, hse]
  · intro mc hmc hsl hrel
    rcases hrel with hrel | hrel <;>
      simp [buildScopeMethodCore, hmc, hp, hsl, hrel]
  · intro mc t hmc hsl hrel ht0 hfind
    simp only [buildScopeMethodCore, hmc, hp, hsl, hrel, hfind]
    rw [if_neg ht0]
    rw [scopeEntry, mlookup_mupdate]
    simp [hmc, slookup_supsertScope]
  · intro mc t inc hmc hsl hrel ht0 hfind hswv hcont
    obtain ⟨rk, hrk⟩ := hfind
    simp only [buildScopeMethodCore, hmc, hp, hsl, hrel, hrk, hswv]
    rw [if_neg ht0]
    have hcont2 : ¬(inc.contains (replaceFirst method.name "prototype." "") = true) := by
      simpa using hcont
    rw [if_neg hcont2]
  · intro d hse
    rcases hmc : mlookup models modelName with _ | mc
    · rw [scopeEntry, hmc] at hse
      simp at hse
    · rw [scopeEntry, hmc] at hse
      simp only [Option.some_bind] at hse
      rcases hrel : relLookup mc.prototypeRels s with _ | t
      · simp only [buildScopeMethodCore, hmc, hp, hse, hrel]
        rw [scopeEntry, hmc]
        exact ⟨d, by simp [hse], rfl⟩
      · by_cases ht0 : t = ""
        · subst ht0
          simp only [buildScopeMethodCore, hmc, hp, hse, hrel, if_true]
          rw [scopeEntry, hmc]
          exact ⟨d, by simp [hse], rfl⟩
        · rcases hfind : findModelKeyByName models (getFormattedModelName t options)
            with _ | rk
          · simp only [buildScopeMethodCore, hmc, hp, hse, hrel, hfind]
            rw [if_neg ht0]
            rw [scopeEntry, hmc]
            exact ⟨d, by simp [hse], rfl⟩
          · simp only [buildScopeMethodCore, hmc, hp, hse, hrel, hfind]
            rw [if_neg ht0]
            refine scopeTail_scopeEntry models modelName i method op s rk d ?_
            rw [scopeEntry, hmc]
            simp [hse]

def mdlSentinel : ModelDesc :=
  { rawName := "m", description := .str "",
    methods := [mkRelMethod "prototype.__get__s"],
    scopes := [("s", none)], prototypeRels := [("s", "t")], isUser := false }

def modelsC2W : ModelsMap := [("M", mdlSentinel)]

/-- Witness for the amended C2: at a concrete map where the null
sentinel is recorded for (M, s), processing another matching method
leaves the map untouched. -/
theorem c2_witness :
    buildScopeMethodCore (fun _ => none) {} modelsC2W "M" 0
      (mkRelMethod "prototype.__get__s") = modelsC2W :=
  (c2_scope_latch (fun _ => none) {} modelsC2W "M" 0
    (mkRelMethod "prototype.__get__s") "get" "s" (by decide)).1 (by decide)
